import Mathlib

/-!
Shallow embedding of `histogram_utils.py`, a library for generating and
comparing color and gradient histograms over images.

Modelling conventions:
* Real-valued numpy arrays are modelled over `ℚ` (exact arithmetic instead of
  IEEE floats); 1-D arrays are `List ℚ`, 2-D arrays are `List (List ℚ)` and
  images (row, column, channel) are `List (List (List ℚ))`.
* Python exceptions (`ValueError`) are modelled by `Except String`.
* External collaborators (`cv2.calcHist` and
  `image_utils.get_derivative_orientation_and_mag`) are opaque dependencies of
  the repository; they are passed as explicit function parameters.
* Gradient orientations are measured in units of π: the Python value `θ`
  radians is represented by the rational `θ/π`, so the orientation range
  `[-np.pi, np.pi]` becomes `[-1, 1]` and the arange bin boundaries
  `-np.pi + k*step` become `-1 + k*(2/n)`.  The scaling is a strictly
  monotone bijection, so every order comparison in the source is preserved.
-/

abbrev Grid := List (List ℚ)

abbrev Image := List (List (List ℚ))

/-- `np.dot` of two 1-D arrays: sum of elementwise products. -/
def npDot (x y : List ℚ) : ℚ := (List.zipWith (· * ·) x y).sum

/-- `np.linalg.norm(v, ord=1)`: the sum of absolute values of the entries. -/
def l1Norm (v : List ℚ) : ℚ := (v.map abs).sum

/-- `a_size * np.ones(shape)` for a 1-D shape of length `n`. -/
def sizesVec (n : ℕ) (a_size : ℚ) : List ℚ :=
  (List.replicate n (1 : ℚ)).map (fun x => a_size * x)

/--
`(hist_a > 0).astype(int) & (hist_b > 0).astype(int)` — the per-bin joint
positivity mask, as a vector of the integers 0 and 1 (`&` is numpy's bitwise
and on the 0/1 integer arrays).
-/
def binary_mask (hist_a hist_b : List ℚ) : List ℤ :=
  List.zipWith
    (fun a b => Int.land (if 0 < a then (1 : ℤ) else 0) (if 0 < b then (1 : ℤ) else 0))
    hist_a hist_b

/-- `np.multiply(hist, binary_mask)` — elementwise product with the mask. -/
def maskMul (hist : List ℚ) (mask : List ℤ) : List ℚ :=
  List.zipWith (fun (h : ℚ) (m : ℤ) => h * (m : ℚ)) hist mask

/--
`normalized_histogram_intersection(hist_a, a_size, hist_b, b_size)` from
`histogram_utils.py`: raises `ValueError` when the two histograms differ in
length, otherwise masks both histograms to their joint support and returns
the size-weighted masked sums divided by the total size.  (ℚ division is
total, with `x / 0 = 0`.)
-/
def normalized_histogram_intersection (hist_a : List ℚ) (a_size : ℚ)
    (hist_b : List ℚ) (b_size : ℚ) : Except String ℚ :=
  if hist_a.length ≠ hist_b.length then
    .error "Histogram A and Histogram B are not same size"
  else
    let mask := binary_mask hist_a hist_b
    let hist_a_masked := maskMul hist_a mask
    let hist_b_masked := maskMul hist_b mask
    let a_sizes := sizesVec hist_a.length a_size
    let b_sizes := sizesVec hist_b.length b_size
    .ok ((npDot a_sizes hist_a_masked + npDot b_sizes hist_b_masked) / (a_size + b_size))

/--
The spec's description of masking in the weighted intersection: `hist_a`
zeroed at every bin except those where both histograms are strictly positive.
-/
def maskedSpec (hist_a hist_b : List ℚ) : List ℚ :=
  List.zipWith (fun a b => if 0 < a ∧ 0 < b then a else 0) hist_a hist_b

/-- Helper: the masked histogram computed by the code equals the spec's one. -/
theorem maskMul_binary_mask_eq (ha hb : List ℚ) :
    maskMul ha (binary_mask ha hb) = maskedSpec ha hb := by
  induction ha generalizing hb with
  | nil => cases hb <;> rfl
  | cons a as ih =>
    cases hb with
    | nil => rfl
    | cons b bs =>
      simp only [maskMul, binary_mask, maskedSpec, List.zipWith_cons_cons] at ih ⊢
      rw [ih bs]
      congr 1
      by_cases hpa : 0 < a <;> by_cases hpb : 0 < b <;>
        simp [hpa, hpb] <;> norm_num [Int.land]

/-- Helper: symmetric form for the second histogram. -/
theorem maskMul_binary_mask_eq_right (ha hb : List ℚ) :
    maskMul hb (binary_mask ha hb) = maskedSpec hb ha := by
  induction ha generalizing hb with
  | nil => cases hb <;> rfl
  | cons a as ih =>
    cases hb with
    | nil => rfl
    | cons b bs =>
      simp only [maskMul, binary_mask, maskedSpec, List.zipWith_cons_cons] at ih ⊢
      rw [ih bs]
      congr 1
      by_cases hpa : 0 < a <;> by_cases hpb : 0 < b <;>
        simp [hpa, hpb] <;> norm_num [Int.land]

/-- Helper: a dot product against a constant vector is the scaled sum. -/
theorem npDot_sizesVec (c : ℚ) (l : List ℚ) (n : ℕ) (hn : l.length ≤ n) :
    npDot (sizesVec n c) l = c * l.sum := by
  induction l generalizing n with
  | nil => simp [npDot, sizesVec]
  | cons x xs ih =>
    cases n with
    | zero => simp at hn
    | succ m =>
      simp only [List.length_cons, Nat.succ_le_succ_iff] at hn
      simp only [npDot, sizesVec, List.replicate, List.map, List.zipWith,
        List.sum_cons] at *
      rw [ih m hn]
      ring

/-- Helper: the full result formula for equal-length histograms. -/
theorem nhi_eq (ha hb : List ℚ) (sa sb : ℚ) (h : ha.length = hb.length) :
    normalized_histogram_intersection ha sa hb sb =
      .ok ((sa * (maskedSpec ha hb).sum + sb * (maskedSpec hb ha).sum) / (sa + sb)) := by
  have hlm : (maskedSpec ha hb).length ≤ hb.length := by
    simp [maskedSpec]
  have hlm' : (maskedSpec hb ha).length ≤ hb.length := by
    simp [maskedSpec]
  simp only [normalized_histogram_intersection, h, ne_eq, not_true_eq_false,
    if_false, maskMul_binary_mask_eq, maskMul_binary_mask_eq_right]
  rw [npDot_sizesVec sa _ _ hlm, npDot_sizesVec sb _ _ hlm']

/--
C1: for equal-length histograms and any weights, the weighted intersection
returns `(a_size * sum(maskedHistA) + b_size * sum(maskedHistB)) / (a_size + b_size)`,
where the masked histograms are zeroed at every bin except those where both
histograms are strictly positive.
-/
theorem nhi_weighted_sum_formula (ha hb : List ℚ) (sa sb : ℚ)
    (h : ha.length = hb.length) :
    normalized_histogram_intersection ha sa hb sb =
      .ok ((sa * (maskedSpec ha hb).sum + sb * (maskedSpec hb ha).sum) / (sa + sb)) :=
  nhi_eq ha hb sa sb h

/-- Witness for C1 at concrete histograms `[2,0]`, `[1,3]` with weights 3 and 5. -/
theorem nhi_weighted_sum_formula_witness :
    [(2 : ℚ), 0].length = [(1 : ℚ), 3].length ∧
      normalized_histogram_intersection [(2 : ℚ), 0] 3 [(1 : ℚ), 3] 5 =
        .ok ((3 * (maskedSpec [(2 : ℚ), 0] [(1 : ℚ), 3]).sum +
              5 * (maskedSpec [(1 : ℚ), 3] [(2 : ℚ), 0]).sum) / (3 + 5)) :=
  ⟨rfl, nhi_weighted_sum_formula [(2 : ℚ), 0] [(1 : ℚ), 3] 3 5 rfl⟩

/-- Helper: self-masking keeps exactly the strictly positive bins. -/
theorem maskedSpec_self (h : List ℚ) :
    maskedSpec h h = h.map (fun a => if 0 < a then a else 0) := by
  induction h with
  | nil => rfl
  | cons a as ih =>
    have hstep : maskedSpec (a :: as) (a :: as) =
        (if 0 < a ∧ 0 < a then a else 0) :: maskedSpec as as := rfl
    rw [hstep, ih, List.map_cons]
    congr 1
    by_cases hpa : 0 < a <;> simp [hpa]

/--
C4 counterexample: the claim says `normalized_histogram_intersection(h, s, h, s)`
equals `s * sum(h restricted to positive bins)`; at `h = [1]`, `s = 2` the code
returns 1 while the claim predicts `2 * 1 = 2`.
-/
theorem nhi_self_counterexample :
    normalized_histogram_intersection [(1 : ℚ)] 2 [(1 : ℚ)] 2 = .ok 1 ∧
      normalized_histogram_intersection [(1 : ℚ)] 2 [(1 : ℚ)] 2 ≠
        .ok (2 * ([(1 : ℚ)].map (fun a => if 0 < a then a else 0)).sum) := by
  have he := nhi_eq [(1 : ℚ)] [(1 : ℚ)] 2 2 rfl
  have hval : normalized_histogram_intersection [(1 : ℚ)] 2 [(1 : ℚ)] 2 = .ok 1 := by
    rw [he]
    norm_num [maskedSpec]
  refine ⟨hval, ?_⟩
  rw [hval]
  intro hcl
  have h1 := Except.ok.inj hcl
  simp at h1

/--
C4 amended: comparing an identical histogram/size pair, the weighted
intersection returns the plain (unweighted) sum of the strictly positive bins
of `h`, independent of the weight `s` (for `s ≠ 0`, where the Python division
is defined); for an all-positive histogram that sum equals `sum(h)`.
-/
theorem nhi_self_eq_posSum (h : List ℚ) (s : ℚ) (hs : s ≠ 0) :
    normalized_histogram_intersection h s h s =
      .ok ((h.map (fun a => if 0 < a then a else 0)).sum) ∧
    ((∀ a ∈ h, 0 < a) → (h.map (fun a => if 0 < a then a else 0)).sum = h.sum) := by
  constructor
  · rw [nhi_eq h h s s rfl, maskedSpec_self]
    congr 1
    have hss : s + s ≠ 0 := by
      intro hc
      apply hs
      linarith
    field_simp
    ring
  · intro hpos
    have : h.map (fun a => if 0 < a then a else 0) = h.map id := by
      apply List.map_congr_left
      intro a hma
      simp [hpos a hma]
    rw [this, List.map_id]

/-- Witness for C4 (amended) at `h = [1]`, `s = 2`. -/
theorem nhi_self_eq_posSum_witness :
    (2 : ℚ) ≠ 0 ∧
      normalized_histogram_intersection [(1 : ℚ)] 2 [(1 : ℚ)] 2 =
        .ok (([(1 : ℚ)].map (fun a => if 0 < a then a else 0)).sum) :=
  ⟨by norm_num, (nhi_self_eq_posSum [(1 : ℚ)] 2 (by norm_num)).1⟩

/--
C8: the weighted intersection raises the shape-mismatch `ValueError` exactly
when the two histograms differ in length (the check is the first statement of
the function, before any computation).
-/
theorem nhi_shape_mismatch_iff (ha hb : List ℚ) (sa sb : ℚ) :
    (∃ e, normalized_histogram_intersection ha sa hb sb = .error e) ↔
      ha.length ≠ hb.length := by
  unfold normalized_histogram_intersection
  by_cases h : ha.length = hb.length <;> simp [h]

/-- `image.shape[0]` — the number of rows of the (row, column, channel) array. -/
def shape0 (image : Image) : ℕ := image.length

/-- `image.shape[2]` — the number of channels of the (row, column, channel) array. -/
def nchannels (image : Image) : ℕ := ((image.headD []).headD []).length

/-- Python `max` of the nonempty list `c :: cs`. -/
def pyMax (c : ℤ) (cs : List ℤ) : ℤ := cs.foldl max c

/--
`check_color_hist_params(image, channels, bins, ranges, mask)` from
`histogram_utils.py`.  Python `max([])` raises, which the first match arm
models; the channel-bound check compares against `image.shape[0] - 1` (the
source's own expression), the shape arithmetic being carried out in ℤ as in
Python; the mask check compares `mask.shape[:1]` with `image.shape[:1]`,
i.e. only the first dimension of each.
-/
def check_color_hist_params (image : Image) (channels : List ℤ) (bins : List ℕ)
    (ranges : List ℚ) (mask : Option Grid) : Except String Unit :=
  match channels with
  | [] => .error "max() arg is an empty sequence"
  | c :: cs =>
    if pyMax c cs > (shape0 image : ℤ) - 1 then
      .error "Max channel requested is larger than channels in image"
    else if (c :: cs).length ≠ bins.length then
      .error "Length of channels does not equal length of bins"
    else if 2 * (c :: cs).length ≠ ranges.length then
      .error "Size of range is not appropriate size"
    else
      match mask with
      | none => .ok ()
      | some m =>
        if m.length ≠ image.length then
          .error "Shape of mask not same shape as image"
        else .ok ()

/-- A 2-row, 5-column, 3-channel zero image. -/
def imgRows2Cols5Chan3 : Image :=
  List.replicate 2 (List.replicate 5 (List.replicate 3 (0 : ℚ)))

/--
C3 (code bug): the validator's channel-bound check compares `max(channels)`
against `image.shape[0] - 1`, the row count, not the channel count
`image.shape[2] - 1` that its own error message ("larger than channels in
image") describes.  On a 2-row, 5-column, 3-channel image with
`channels=[2]`, `bins=[8]`, `ranges=[0,256]` the code raises even though
channel index 2 is valid for 3 channels.
-/
theorem check_channel_bound_uses_rows :
    (∃ e, check_color_hist_params imgRows2Cols5Chan3 [2] [8] [0, 256] none =
      .error e) ∧
    (2 : ℤ) < (nchannels imgRows2Cols5Chan3 : ℤ) ∧
    shape0 imgRows2Cols5Chan3 = 2 :=
  ⟨⟨"Max channel requested is larger than channels in image", rfl⟩, by decide, rfl⟩

/-- A 2-row, 3-column, 3-channel zero image. -/
def imgRows2Cols3Chan3 : Image :=
  List.replicate 2 (List.replicate 3 (List.replicate 3 (0 : ℚ)))

/-- A 2-row, 4-column mask (second dimension differs from `imgRows2Cols3Chan3`). -/
def maskRows2Cols4 : Grid := List.replicate 2 (List.replicate 4 (0 : ℚ))

/--
C7 counterexample: the claim says the validator raises whenever the mask's
first two dimensions differ from the image's, but the code compares only
`shape[:1]` (the first dimension): a 2×4 mask against a 2×3×3 image passes
validation although the second dimensions (4 vs 3) differ.
-/
theorem check_mask_second_dim_unchecked :
    check_color_hist_params imgRows2Cols3Chan3 [0] [8] [0, 256]
      (some maskRows2Cols4) = .ok () ∧
    (maskRows2Cols4.headD []).length ≠ (imgRows2Cols3Chan3.headD []).length :=
  ⟨rfl, by decide⟩

/--
C7 amended: when the other three checks pass, the validator accepts a
supplied mask exactly when the mask's first dimension (row count) equals the
image's first dimension; the second dimension is not inspected.  In
particular a 2-D mask matching both leading dimensions passes.
-/
theorem check_mask_first_dim_only (image : Image) (c : ℤ) (cs : List ℤ)
    (bins : List ℕ) (ranges : List ℚ) (m : Grid)
    (h1 : pyMax c cs ≤ (shape0 image : ℤ) - 1)
    (h2 : (c :: cs).length = bins.length)
    (h3 : 2 * (c :: cs).length = ranges.length) :
    (check_color_hist_params image (c :: cs) bins ranges (some m) = .ok ()) ↔
      m.length = image.length := by
  have hred : check_color_hist_params image (c :: cs) bins ranges (some m) =
      if pyMax c cs > (shape0 image : ℤ) - 1 then
        Except.error "Max channel requested is larger than channels in image"
      else if (c :: cs).length ≠ bins.length then
        Except.error "Length of channels does not equal length of bins"
      else if 2 * (c :: cs).length ≠ ranges.length then
        Except.error "Size of range is not appropriate size"
      else if m.length ≠ image.length then
        Except.error "Shape of mask not same shape as image"
      else Except.ok () := rfl
  rw [hred, if_neg (not_lt.mpr h1), if_neg (not_not_intro h2), if_neg (not_not_intro h3)]
  by_cases hm : m.length = image.length <;> simp [hm]

/-- Witness for C7 (amended) at a 2×3×3 image with a matching 2×3 mask. -/
theorem check_mask_first_dim_only_witness :
    pyMax 0 [] ≤ (shape0 imgRows2Cols3Chan3 : ℤ) - 1 ∧
    ((check_color_hist_params imgRows2Cols3Chan3 [0] [8] [0, 256]
        (some (List.replicate 2 (List.replicate 3 (0 : ℚ)))) = .ok ()) ↔
      (List.replicate 2 (List.replicate 3 (0 : ℚ))).length =
        imgRows2Cols3Chan3.length) :=
  ⟨by decide,
    check_mask_first_dim_only imgRows2Cols3Chan3 0 [] [8] [0, 256]
      (List.replicate 2 (List.replicate 3 (0 : ℚ))) (by decide) rfl rfl⟩

/-- A multi-dimensional numpy array of rationals, as returned by `cv2.calcHist`. -/
inductive NDArr where
  | scalar : ℚ → NDArr
  | arr : List NDArr → NDArr

mutual

/-- `.flatten()` of a multi-dimensional array: depth-first (row-major) order. -/
def NDArr.flatten : NDArr → List ℚ
  | .scalar q => [q]
  | .arr l => NDArr.flattenList l

/-- `.flatten()` applied across a list of sub-arrays, concatenated in order. -/
def NDArr.flattenList : List NDArr → List ℚ
  | [] => []
  | a :: as => a.flatten ++ NDArr.flattenList as

end

/--
The type of the external `cv2.calcHist([image], channels, mask, bins, ranges)`
collaborator, treated as an opaque dependency.
-/
abbrev CalcHist := Image → List ℤ → Option Grid → List ℕ → List ℚ → NDArr

/--
`get_histogram(image, channels, bins, ranges, mask)` from `histogram_utils.py`:
validates the parameters, then returns the raw (unnormalized) histogram
computed by `cv2.calcHist`.
-/
def get_histogram (calcHist : CalcHist) (image : Image) (channels : List ℤ)
    (bins : List ℕ) (ranges : List ℚ) (mask : Option Grid) : Except String NDArr := do
  let _ ← check_color_hist_params image channels bins ranges mask
  .ok (calcHist image channels mask bins ranges)

/--
`get_normalized_histogram(image, channels, bins, ranges, mask)` from
`histogram_utils.py`: validates the parameters, computes the raw histogram,
flattens it, and divides every bin by its L1 norm.
-/
def get_normalized_histogram (calcHist : CalcHist) (image : Image)
    (channels : List ℤ) (bins : List ℕ) (ranges : List ℚ) (mask : Option Grid) :
    Except String (List ℚ) := do
  let _ ← check_color_hist_params image channels bins ranges mask
  let hist := calcHist image channels mask bins ranges
  let flat := hist.flatten
  .ok (flat.map (fun x => x / l1Norm flat))

/-- Helper: sum of a list divided elementwise equals the divided sum. -/
theorem sum_map_div (l : List ℚ) (c : ℚ) :
    (l.map (fun x => x / c)).sum = l.sum / c := by
  induction l with
  | nil => simp
  | cons x xs ih => simp [ih, add_div]

/-- Helper: a list with a nonzero entry has strictly positive L1 norm. -/
theorem l1Norm_pos (l : List ℚ) (hnz : ∃ x ∈ l, x ≠ 0) : 0 < l1Norm l := by
  obtain ⟨x, hx, hne⟩ := hnz
  have habs : |x| ∈ l.map abs := List.mem_map_of_mem abs hx
  have hnn : ∀ y ∈ l.map abs, (0 : ℚ) ≤ y := by
    intro y hy
    obtain ⟨z, _, rfl⟩ := List.mem_map.mp hy
    exact abs_nonneg z
  have hle : |x| ≤ (l.map abs).sum := List.single_le_sum hnn _ habs
  have hpos : 0 < |x| := abs_pos.mpr hne
  unfold l1Norm
  linarith

/-- Helper: L1-normalizing a list with a nonzero entry yields L1 norm 1. -/
theorem l1Norm_normalize (l : List ℚ) (hnz : ∃ x ∈ l, x ≠ 0) :
    l1Norm (l.map (fun x => x / l1Norm l)) = 1 := by
  have hpos := l1Norm_pos l hnz
  have hne : l1Norm l ≠ 0 := ne_of_gt hpos
  unfold l1Norm at *
  rw [List.map_map]
  have hcong : (l.map (abs ∘ fun x => x / (l.map abs).sum)) =
      l.map (fun x => |x| / (l.map abs).sum) := by
    apply List.map_congr_left
    intro a _
    simp only [Function.comp_apply, abs_div]
    rw [abs_of_pos hpos]
  rw [hcong, show (fun x : ℚ => |x| / (l.map abs).sum) =
    ((fun y : ℚ => y / (l.map abs).sum) ∘ abs) from rfl, ← List.map_map,
    sum_map_div]
  exact div_self hne

/--
C5: for valid parameters whose raw histogram has a nonzero bin, the
normalized histogram equals the flattened raw histogram scaled by the
reciprocal of its L1 norm, and its absolute bin values sum to 1.
-/
theorem normalized_histogram_l1 (calcHist : CalcHist) (image : Image)
    (channels : List ℤ) (bins : List ℕ) (ranges : List ℚ) (mask : Option Grid)
    (raw : NDArr)
    (hok : get_histogram calcHist image channels bins ranges mask = .ok raw)
    (hnz : ∃ x ∈ raw.flatten, x ≠ 0) :
    get_normalized_histogram calcHist image channels bins ranges mask =
      .ok (raw.flatten.map (fun x => x / l1Norm raw.flatten)) ∧
    l1Norm (raw.flatten.map (fun x => x / l1Norm raw.flatten)) = 1 := by
  unfold get_histogram at hok
  unfold get_normalized_histogram
  cases hchk : check_color_hist_params image channels bins ranges mask with
  | error e =>
    rw [hchk] at hok
    exact absurd hok (by simp [Bind.bind, Except.bind])
  | ok u =>
    rw [hchk] at hok
    have hraw : calcHist image channels mask bins ranges = raw := by
      simpa [Bind.bind, Except.bind] using hok
    constructor
    · simp [Bind.bind, Except.bind, hraw]
    · exact l1Norm_normalize _ hnz

/-- A concrete stand-in for `cv2.calcHist` used by the C5 witness. -/
def calcHistWitness : CalcHist :=
  fun _ _ _ _ _ => NDArr.arr [NDArr.scalar 3, NDArr.scalar 1]

/-- A 1-row, 1-column, 1-channel zero image. -/
def imgRows1Cols1Chan1 : Image := [[[0]]]

/-- Witness for C5 at a concrete image, parameter set, and calcHist stand-in. -/
theorem normalized_histogram_l1_witness :
    get_histogram calcHistWitness imgRows1Cols1Chan1 [0] [2] [0, 256] none =
      .ok (NDArr.arr [NDArr.scalar 3, NDArr.scalar 1]) ∧
    (∃ x ∈ (NDArr.arr [NDArr.scalar 3, NDArr.scalar 1]).flatten, x ≠ 0) ∧
    get_normalized_histogram calcHistWitness imgRows1Cols1Chan1 [0] [2] [0, 256]
        none =
      .ok ((NDArr.arr [NDArr.scalar 3, NDArr.scalar 1]).flatten.map
        (fun x => x / l1Norm (NDArr.arr [NDArr.scalar 3, NDArr.scalar 1]).flatten)) := by
  have hok : get_histogram calcHistWitness imgRows1Cols1Chan1 [0] [2] [0, 256] none =
      .ok (NDArr.arr [NDArr.scalar 3, NDArr.scalar 1]) := rfl
  have hnz : ∃ x ∈ (NDArr.arr [NDArr.scalar 3, NDArr.scalar 1]).flatten, x ≠ 0 := by
    refine ⟨3, ?_, by norm_num⟩
    simp [NDArr.flatten, NDArr.flattenList]
  exact ⟨hok, hnz,
    (normalized_histogram_l1 calcHistWitness imgRows1Cols1Chan1 [0] [2] [0, 256]
      none (NDArr.arr [NDArr.scalar 3, NDArr.scalar 1]) hok hnz).1⟩

/--
C10: with an empty `channels` list the validator fails immediately (Python's
`max([])` raises before any other check), and therefore `get_histogram` and
`get_normalized_histogram`, which validate first, fail before any histogram
is computed.
-/
theorem empty_channels_fails (calcHist : CalcHist) (image : Image)
    (bins : List ℕ) (ranges : List ℚ) (mask : Option Grid) :
    check_color_hist_params image [] bins ranges mask =
      .error "max() arg is an empty sequence" ∧
    get_histogram calcHist image [] bins ranges mask =
      .error "max() arg is an empty sequence" ∧
    get_normalized_histogram calcHist image [] bins ranges mask =
      .error "max() arg is an empty sequence" :=
  ⟨rfl, rfl, rfl⟩

/--
Result of the external `image_utils.get_derivative_orientation_and_mag`
collaborator: per-pixel gradient orientation (`.ori`, here in units of π, so
the radian range `[-np.pi, np.pi]` is `[-1, 1]`) and magnitude (`.mag`).
-/
structure GradientResult where
  ori : Grid
  mag : Grid

/--
The type of the external gradient collaborator: one channel plane and the
smoothing scale `sigma` in, orientation and magnitude grids out.
-/
abbrev GradOp := Grid → ℚ → GradientResult

/-- `im[:,:,channel]` — extract one channel plane of a (row, column, channel) image. -/
def channelPlane (im : Image) (ch : ℕ) : Grid :=
  im.map (fun row => row.map (fun px => px.getD ch 0))

/-- `np.max` over a 2-D array (the maximum entry; Python errors on an empty array). -/
def npMaxGrid (g : Grid) : ℚ :=
  match g.flatten with
  | [] => 0
  | x :: xs => xs.foldl max x

/-- `np.sum(a, axis=(0,1))` applied to one spatial slice: sum over a 2-D grid. -/
def sumGrid (g : Grid) : ℚ := (g.map (fun row => row.sum)).sum

/--
The bin-boundary list of `get_sift_features`, in units of π: `np.arange(-np.pi,
np.pi, step)` with `step = 2π/no_bins` produces `-π + k·step` for
`k = 0, …, no_bins-1` (in exact arithmetic), and the code then appends `np.pi`.
-/
def orientations (no_bins : ℕ) : List ℚ :=
  ((List.range no_bins).map
    (fun (k : ℕ) => -1 + (k : ℚ) * (2 / (no_bins : ℚ)))) ++ [1]

/--
The per-pixel indicator array for one angular bin of `get_sift_features`:
1 where the orientation lies strictly inside `(lo, hi)` AND the magnitude
strictly exceeds the channel threshold, else 0.
-/
def indicatorGrid (lo hi thr : ℚ) (g : GradientResult) : Grid :=
  (List.zip g.ori g.mag).map (fun rowPair =>
    (List.zip rowPair.1 rowPair.2).map (fun om =>
      if lo < om.1 ∧ om.1 < hi ∧ thr < om.2 then (1 : ℚ) else 0))

/--
One channel's per-bin spatial sums in `get_sift_features`: for each of the
`no_bins` bins (`range(len(orientations) - 1)` iterations), the indicator
array summed over the spatial axes (0, 1).
-/
def channelHist (no_bins : ℕ) (g : GradientResult) (thr : ℚ) : List ℚ :=
  (List.range no_bins).map (fun i =>
    sumGrid (indicatorGrid ((orientations no_bins).getD i 0)
      ((orientations no_bins).getD (i + 1) 0) thr g))

/--
The pre-normalization descriptor of `get_sift_features`: per channel, the
gradient collaborator is applied to the channel plane, the magnitude threshold
is `th * np.max(mag)`, and the per-bin spatial sums are concatenated across
channels in channel order.
-/
def preSift (gradOp : GradOp) (im : Image) (sigma : ℚ) (no_bins : ℕ) (th : ℚ) :
    List ℚ :=
  (List.range (nchannels im)).flatMap (fun ch =>
    let g := gradOp (channelPlane im ch) sigma
    channelHist no_bins g (th * npMaxGrid g.mag))

/-- `v / np.linalg.norm(v, ord=1)` — elementwise division by the L1 norm. -/
def l1Normalize (v : List ℚ) : List ℚ := v.map (fun x => x / l1Norm v)

/--
The numpy heap: arrays live at numbered references, and `np.copy` allocates
a fresh reference.  This models which array object an in-place assignment
such as `im[:,:,i] = ...` mutates.
-/
abbrev Heap := List Image

/-- Read the array stored at reference `r`. -/
def heapRead (h : Heap) (r : ℕ) : Image := h.getD r []

/-- Overwrite the array stored at reference `r`. -/
def heapWrite (h : Heap) (r : ℕ) (v : Image) : Heap := h.set r v

/--
The masking loop of `get_sift_features`:
`for i in range(3): im[:,:,i] = mask * image[:,:,i]` — every pixel of the
copy `im` has its first three channel values replaced by the mask value times
the corresponding pixel of the original `image`; other channels keep the
copy's values.  (Lookups out of range default to 0 / keep `im`'s entry;
numpy would raise on shape-mismatched operands instead.)
-/
def maskChannels (mask : Grid) (image im : Image) : Image :=
  im.enum.map (fun rowE =>
    rowE.2.enum.map (fun colE =>
      colE.2.enum.map (fun chanE =>
        if chanE.1 < 3 then
          ((mask.getD rowE.1 []).getD colE.1 0) *
            (((image.getD rowE.1 []).getD colE.1 []).getD chanE.1 0)
        else chanE.2)))

/--
`get_sift_features(image, sigma, no_bins, th, mask)` from `histogram_utils.py`
as a heap transformer: the caller's image lives at `imageRef`; the function
copies it to a fresh reference, applies the mask (if any) in place on the
copy only, and computes the L1-normalized concatenated orientation histogram
from the copy.  Returns the final heap and the descriptor.
-/
def get_sift_features_st (gradOp : GradOp) (heap : Heap) (imageRef : ℕ)
    (sigma : ℚ) (no_bins : ℕ) (th : ℚ) (mask : Option Grid) : Heap × List ℚ :=
  let imRef := heap.length
  let h1 := heap ++ [heapRead heap imageRef]
  let h2 := match mask with
    | none => h1
    | some m =>
      heapWrite h1 imRef (maskChannels m (heapRead h1 imageRef) (heapRead h1 imRef))
  let im := heapRead h2 imRef
  (h2, l1Normalize (preSift gradOp im sigma no_bins th))

/-- `get_sift_features` as a pure function of the caller's image value. -/
def get_sift_features (gradOp : GradOp) (image : Image) (sigma : ℚ)
    (no_bins : ℕ) (th : ℚ) (mask : Option Grid) : List ℚ :=
  (get_sift_features_st gradOp [image] 0 sigma no_bins th mask).2

/-- Helper: the bin boundaries are `-1 + i·(2/n)` (units of π) for every `i ≤ n`. -/
theorem orientations_getD (n i : ℕ) (hn : 0 < n) (hi : i ≤ n) :
    (orientations n).getD i 0 = -1 + (i : ℚ) * (2 / (n : ℚ)) := by
  have hlen : ((List.range n).map
      (fun (k : ℕ) => -1 + (k : ℚ) * (2 / (n : ℚ)))).length = n := by
    rw [List.length_map, List.length_range]
  rcases lt_or_eq_of_le hi with hlt | heq
  · unfold orientations
    rw [List.getD_append _ _ _ _ (by rw [hlen]; exact hlt)]
    rw [List.getD_eq_getElem?_getD, List.getElem?_map, List.getElem?_range hlt]
    rfl
  · subst heq
    unfold orientations
    rw [List.getD_append_right _ _ _ _ (by rw [hlen])]
    have hne : (i : ℚ) ≠ 0 := Nat.cast_ne_zero.mpr (Nat.pos_iff_ne_zero.mp hn)
    rw [hlen, Nat.sub_self, List.getD_cons_zero]
    field_simp
    norm_num

/-- Helper: the bin contents of `channelHist` at index `i < no_bins`. -/
theorem channelHist_getD (n i : ℕ) (g : GradientResult) (thr : ℚ) (hi : i < n) :
    (channelHist n g thr).getD i 0 =
      sumGrid (indicatorGrid ((orientations n).getD i 0)
        ((orientations n).getD (i + 1) 0) thr g) := by
  unfold channelHist
  simp [List.getD_eq_getElem?_getD, List.getElem?_map, List.getElem?_range, hi]

/-- Helper: on a single-pixel gradient grid the bin sum is the bin indicator. -/
theorem sumGrid_indicator_single (lo hi thr u m : ℚ) :
    sumGrid (indicatorGrid lo hi thr ⟨[[u]], [[m]]⟩) =
      if lo < u ∧ u < hi ∧ thr < m then 1 else 0 := by
  simp [sumGrid, indicatorGrid, List.zip]

/--
C2 counterexample: the claim says a pixel whose orientation equals exactly +π
(with magnitude above threshold) is counted into the final bin; with 10 bins,
a single pixel of orientation +π (1 in units of π) and magnitude 1 above the
threshold 0, the final bin (index 9) holds 0, and in fact every bin holds 0.
-/
theorem sift_pi_not_in_final_bin :
    (channelHist 10 ⟨[[1]], [[1]]⟩ 0).getD 9 0 = 0 ∧
    (0 : ℚ) < 1 := by
  refine ⟨?_, by norm_num⟩
  rw [channelHist_getD 10 9 _ 0 (by norm_num), sumGrid_indicator_single,
    orientations_getD 10 9 (by norm_num) (by norm_num),
    orientations_getD 10 10 (by norm_num) (le_refl 10)]
  rw [if_neg]
  intro hc
  obtain ⟨_, hc2, _⟩ := hc
  norm_num at hc2

/--
C2 amended: the orientation range (in units of π) is partitioned into
`no_bins` equal-width intervals whose boundary comparisons are strict on BOTH
sides for every bin, including the final bin's upper bound at +π: a pixel
whose orientation equals an interior boundary is counted into neither
adjacent bin, and a pixel whose orientation equals exactly +π (even with
magnitude above threshold) is counted into no bin at all.
-/
theorem sift_bin_membership_strict (n i : ℕ) (hn : 0 < n) (hi : i < n)
    (u m thr : ℚ) :
    ((channelHist n ⟨[[u]], [[m]]⟩ thr).getD i 0 =
      if -1 + (i : ℚ) * (2 / (n : ℚ)) < u ∧
          u < -1 + ((i : ℚ) + 1) * (2 / (n : ℚ)) ∧ thr < m
        then 1 else 0) ∧
    ((u = -1 + (i : ℚ) * (2 / (n : ℚ)) ∨
        u = -1 + ((i : ℚ) + 1) * (2 / (n : ℚ))) →
      (channelHist n ⟨[[u]], [[m]]⟩ thr).getD i 0 = 0) ∧
    (u = 1 → (channelHist n ⟨[[u]], [[m]]⟩ thr).getD i 0 = 0) := by
  have hcast : ((i + 1 : ℕ) : ℚ) = (i : ℚ) + 1 := by push_cast; ring
  have hmain : (channelHist n ⟨[[u]], [[m]]⟩ thr).getD i 0 =
      if -1 + (i : ℚ) * (2 / (n : ℚ)) < u ∧
          u < -1 + ((i : ℚ) + 1) * (2 / (n : ℚ)) ∧ thr < m
        then 1 else 0 := by
    rw [channelHist_getD n i _ thr hi, sumGrid_indicator_single,
      orientations_getD n i hn (le_of_lt hi),
      orientations_getD n (i + 1) hn (by omega), hcast]
  refine ⟨hmain, ?_, ?_⟩
  · intro hbound
    rw [hmain]
    rcases hbound with hlo | hhi
    · rw [if_neg]
      intro ⟨hc, _, _⟩
      rw [hlo] at hc
      exact lt_irrefl _ hc
    · rw [if_neg]
      intro ⟨_, hc, _⟩
      rw [hhi] at hc
      exact lt_irrefl _ hc
  · intro hpi
    rw [hmain, if_neg]
    intro ⟨_, hc, _⟩
    have hnq : (0 : ℚ) < (n : ℚ) := Nat.cast_pos.mpr hn
    have hiq : (i : ℚ) + 1 ≤ (n : ℚ) := by exact_mod_cast hi
    have hub : -1 + ((i : ℚ) + 1) * (2 / (n : ℚ)) ≤ 1 := by
      have h2 : ((i : ℚ) + 1) * (2 / (n : ℚ)) ≤ (n : ℚ) * (2 / (n : ℚ)) :=
        mul_le_mul_of_nonneg_right hiq (by positivity)
      have h3 : (n : ℚ) * (2 / (n : ℚ)) = 2 := by field_simp
      linarith
    rw [hpi] at hc
    linarith

/-- Witness for C2 (amended): with 4 bins, the +π pixel lands in no bin. -/
theorem sift_bin_membership_strict_witness :
    (channelHist 4 ⟨[[(1 : ℚ)]], [[1]]⟩ 0).getD 1 0 = 0 :=
  (sift_bin_membership_strict 4 1 (by norm_num) (by norm_num) 1 1 0).2.2 rfl

/--
The image value the descriptor is computed from: the defensive copy, after
the in-place masking loop if a mask was supplied.
-/
def siftInput (image : Image) (mask : Option Grid) : Image :=
  match mask with
  | none => image
  | some m => maskChannels m image image

/-- Helper: the pure descriptor is the L1-normalized pre-descriptor of the
(masked) copy. -/
theorem get_sift_features_eq (gradOp : GradOp) (image : Image) (sigma : ℚ)
    (no_bins : ℕ) (th : ℚ) (mask : Option Grid) :
    get_sift_features gradOp image sigma no_bins th mask =
      l1Normalize (preSift gradOp (siftInput image mask) sigma no_bins th) := by
  cases mask <;> rfl

/-- Helper: masking preserves the channel count (`shape[2]`). -/
theorem nchannels_maskChannels (m : Grid) (image im : Image) :
    nchannels (maskChannels m image im) = nchannels im := by
  cases im with
  | nil => rfl
  | cons row rest =>
    cases row with
    | nil => rfl
    | cons px r =>
      simp [nchannels, maskChannels, List.enum_cons]

/-- Helper: masking or not, the copy has the caller's channel count. -/
theorem nchannels_siftInput (image : Image) (mask : Option Grid) :
    nchannels (siftInput image mask) = nchannels image := by
  cases mask with
  | none => rfl
  | some m => exact nchannels_maskChannels m image image

/-- Helper: the length of a flatMap over blocks of constant length. -/
theorem length_flatMap_const {α β : Type} (l : List α) (f : α → List β) (n : ℕ)
    (hf : ∀ a, (f a).length = n) : (l.flatMap f).length = l.length * n := by
  induction l with
  | nil => simp
  | cons a as ih =>
    simp [List.flatMap_cons, ih, hf a, Nat.succ_mul, Nat.add_comm]

/-- Helper: the pre-descriptor has one bin slot per channel and bin. -/
theorem preSift_length (gradOp : GradOp) (im : Image) (sigma : ℚ) (n : ℕ)
    (th : ℚ) : (preSift gradOp im sigma n th).length = nchannels im * n := by
  unfold preSift
  rw [length_flatMap_const _ _ n (fun ch => by simp [channelHist]),
    List.length_range]

/-- Helper: every spatial sum of an indicator grid is non-negative. -/
theorem sumGrid_indicatorGrid_nonneg (lo hi thr : ℚ) (g : GradientResult) :
    0 ≤ sumGrid (indicatorGrid lo hi thr g) := by
  unfold sumGrid indicatorGrid
  apply List.sum_nonneg
  intro s hs
  rw [List.mem_map] at hs
  obtain ⟨row, hrow, rfl⟩ := hs
  apply List.sum_nonneg
  intro x hx
  rw [List.mem_map] at hrow
  obtain ⟨rp, _, rfl⟩ := hrow
  rw [List.mem_map] at hx
  obtain ⟨om, _, rfl⟩ := hx
  split <;> norm_num

/-- Helper: every entry of the pre-descriptor is non-negative. -/
theorem preSift_nonneg (gradOp : GradOp) (im : Image) (sigma : ℚ) (n : ℕ)
    (th : ℚ) : ∀ x ∈ preSift gradOp im sigma n th, 0 ≤ x := by
  intro x hx
  unfold preSift at hx
  rw [List.mem_flatMap] at hx
  obtain ⟨ch, _, hx⟩ := hx
  simp only [channelHist, List.mem_map] at hx
  obtain ⟨i, _, rfl⟩ := hx
  exact sumGrid_indicatorGrid_nonneg _ _ _ _

/--
C6: the descriptor returned by `get_sift_features` is a single flat vector of
length `channels * no_bins` (channel count times bin count), and whenever the
pre-normalization vector has a nonzero entry its L1 norm equals 1.
-/
theorem sift_descriptor_shape_and_l1 (gradOp : GradOp) (image : Image)
    (sigma : ℚ) (no_bins : ℕ) (th : ℚ) (mask : Option Grid) :
    (get_sift_features gradOp image sigma no_bins th mask).length =
      nchannels image * no_bins ∧
    ((∃ x ∈ preSift gradOp (siftInput image mask) sigma no_bins th, x ≠ 0) →
      l1Norm (get_sift_features gradOp image sigma no_bins th mask) = 1) := by
  rw [get_sift_features_eq]
  constructor
  · unfold l1Normalize
    rw [List.length_map, preSift_length, nchannels_siftInput]
  · intro hnz
    unfold l1Normalize
    exact l1Norm_normalize _ hnz

/-- A concrete gradient collaborator for the witnesses. -/
def gradOpWitness : GradOp := fun _ _ => ⟨[[(1 : ℚ) / 2]], [[1]]⟩

/-- Witness for C6 at a 1×1×1 image with two bins and no mask. -/
theorem sift_descriptor_shape_and_l1_witness :
    (∃ x ∈ preSift gradOpWitness (siftInput [[[5]]] none) 1 2 0, x ≠ 0) ∧
    (get_sift_features gradOpWitness [[[5]]] 1 2 0 none).length =
      nchannels [[[5]]] * 2 ∧
    l1Norm (get_sift_features gradOpWitness [[[5]]] 1 2 0 none) = 1 := by
  have hpre : preSift gradOpWitness (siftInput [[[5]]] none) 1 2 0 = [0, 1] := by
    norm_num [preSift, siftInput, nchannels, channelPlane, npMaxGrid, channelHist,
      orientations, sumGrid, indicatorGrid, gradOpWitness, List.range_succ,
      List.zip]
  have hnz : ∃ x ∈ preSift gradOpWitness (siftInput [[[5]]] none) 1 2 0, x ≠ 0 := by
    rw [hpre]
    exact ⟨1, by norm_num, by norm_num⟩
  exact ⟨hnz,
    (sift_descriptor_shape_and_l1 gradOpWitness [[[5]]] 1 2 0 none).1,
    (sift_descriptor_shape_and_l1 gradOpWitness [[[5]]] 1 2 0 none).2 hnz⟩

/-- Helper: `getD` is unchanged by `set` at a different index. -/
theorem getD_set_ne {α : Type} (l : List α) (i r : ℕ) (v d : α) (h : i ≠ r) :
    (l.set i v).getD r d = l.getD r d := by
  rw [List.getD_eq_getElem?_getD, List.getD_eq_getElem?_getD,
    List.getElem?_set_ne h]

/--
C9: `get_sift_features` never mutates the caller's image: the masking loop
writes only to the fresh copy's reference, so after the call the array at the
caller's reference is unchanged.
-/
theorem sift_preserves_caller_image (gradOp : GradOp) (heap : Heap) (r : ℕ)
    (hr : r < heap.length) (sigma : ℚ) (no_bins : ℕ) (th : ℚ)
    (mask : Option Grid) :
    heapRead (get_sift_features_st gradOp heap r sigma no_bins th mask).1 r =
      heapRead heap r := by
  unfold get_sift_features_st heapRead heapWrite
  cases mask with
  | none => exact List.getD_append _ _ _ _ hr
  | some m =>
    rw [getD_set_ne _ _ _ _ _ (Nat.ne_of_gt hr)]
    exact List.getD_append _ _ _ _ hr

/-- Witness for C9: a one-image heap with a mask supplied, exercising the
in-place masking path. -/
theorem sift_preserves_caller_image_witness :
    0 < ([[[[(5 : ℚ)]]]] : Heap).length ∧
    heapRead (get_sift_features_st gradOpWitness [[[[(5 : ℚ)]]]] 0 1 2 0
        (some [[2]])).1 0 = heapRead [[[[(5 : ℚ)]]]] 0 :=
  ⟨by norm_num,
    sift_preserves_caller_image gradOpWitness [[[[(5 : ℚ)]]]] 0 (by norm_num)
      1 2 0 (some [[2]])⟩
